import Mathlib

/-!
Shallow embedding of the Online-Drawing-App (src/Online-Drawing App/app.js).

The app is a single class `DrawingApp` holding a canvas, style state,
gesture state (`isDrawing`, `startPoint`), and two snapshot stacks
(`history`, `redoStack`).  We model the canvas pixel buffer as the list of
drawing operations painted onto it since creation (oldest first): the JS
`toDataURL` snapshot captures the full pixel contents and `drawImage` of a
snapshot after `clearRect` replaces the contents exactly, so a snapshot is
the surface value itself.  JS arrays push/pop at the end; we store each
stack most-recent-first, so the JS `push` is `List.cons`, `pop` takes the
head, and the JS top `a[a.length - 1]` is the head.

Pointer coordinates are modelled as exact rationals.  The one operation
that leaves the rationals is the circle tool's `Math.sqrt`; the circle op
records the exact squared radius (which determines the drawn circle
together with the centre), and the real-valued radius the source computes
is `DrawingApp.circleRadius` below.

Methods that read a field of the `null` object (`this.startPoint.x` when
`startPoint` is null) would throw a TypeError in JS; they are embedded as
functions into `Option`, returning `none` exactly on that access.
-/

/-- A pointer position in canvas coordinates (JS: clientX/clientY minus the
canvas bounding rectangle). -/
structure Point where
  x : ℚ
  y : ℚ
deriving DecidableEq, Repr

/-- The five tools of the app (app.js lines 52-56 and the lists at lines 83
and 186). -/
inductive Tool
  | pencil
  | eraser
  | rectangle
  | square
  | circle
deriving DecidableEq, Repr

/-- One painting operation on the canvas context.
`fillWhiteRect` is the whole-canvas white fill of `initCanvas` and
`clearCanvas`; `lineSegTo` is one freehand `lineTo`/`stroke` step;
`strokeRect` is `ctx.strokeRect(x, y, w, h)`; `strokeCircleSq` is
`ctx.arc(cx, cy, Math.sqrt rsq, 0, 2*pi)` followed by `stroke`, recorded
by its exact squared radius. -/
inductive CanvasOp
  | fillWhiteRect
  | lineSegTo (x y : ℚ) (strokeColor : String) (strokeWidth : Int)
  | strokeRect (x y w h : ℚ) (strokeColor : String) (strokeWidth : Int)
  | strokeCircleSq (cx cy rsq : ℚ) (strokeColor : String) (strokeWidth : Int)
deriving DecidableEq, Repr

/-- The canvas pixel buffer, as the operations painted onto it, oldest
first.  A `toDataURL` snapshot is the same data, so snapshots reuse this
type. -/
abbrev Surface := List CanvasOp

/-- The state of the `DrawingApp` class: the fields set in the constructor
(app.js lines 7-15) plus the canvas contents. -/
structure DrawingApp where
  isDrawing : Bool
  currentTool : Tool
  color : String
  lineWidth : Int
  startPoint : Option Point
  surface : Surface
  history : List Surface
  redoStack : List Surface
deriving DecidableEq, Repr

namespace DrawingApp

/-- The canvas contents right after `initCanvas` painted white over the
fresh (empty) canvas: the initial blank snapshot. -/
def blankSurface : Surface := [CanvasOp.fillWhiteRect]

/-- app.js lines 30-34: snapshot the canvas, push it onto `history`, and
reset `redoStack` to the empty array. -/
def saveCanvasState (s : DrawingApp) : DrawingApp :=
  { s with history := s.surface :: s.history, redoStack := [] }

/-- app.js lines 37-47: if `history` is non-empty, repaint the canvas with
its top snapshot (`clearRect` then `drawImage` replaces the contents
exactly; the image decode is treated as atomic, per the design notes). -/
def restoreLastState (s : DrawingApp) : DrawingApp :=
  match s.history with
  | [] => s
  | lastState :: _ => { s with surface := lastState }

/-- app.js lines 23-27: fill the whole canvas white, then save that state
as the first history entry. -/
def initCanvas (s : DrawingApp) : DrawingApp :=
  saveCanvasState { s with surface := s.surface ++ [CanvasOp.fillWhiteRect] }

/-- The constructor (app.js lines 2-20): field initialisation followed by
`initCanvas` on the fresh canvas.  Event binding is DOM glue with no state
effect. -/
def init : DrawingApp :=
  initCanvas
    { isDrawing := false
      currentTool := Tool.pencil
      color := "#000000"
      lineWidth := 5
      startPoint := none
      surface := []
      history := []
      redoStack := [] }

/-- app.js lines 80-88: set the current tool (button CSS classes are DOM
glue). -/
def setTool (s : DrawingApp) (tool : Tool) : DrawingApp :=
  { s with currentTool := tool }

/-- app.js lines 91-102: mousedown handler.  Sets the active flag and the
anchor; the `beginPath`/`moveTo` for freehand tools opens the path at the
anchor, whose visible effect is carried by the later `lineSegTo` ops. -/
def startDrawing (s : DrawingApp) (x y : ℚ) : DrawingApp :=
  { s with isDrawing := true, startPoint := some ⟨x, y⟩ }

/-- app.js line 141-144: the square tool's side length,
`min |x - startPoint.x| |y - startPoint.y|`. -/
def squareSize (sp : Point) (x y : ℚ) : ℚ :=
  min |x - sp.x| |y - sp.y|

/-- app.js line 147: horizontal direction, `x > startPoint.x ? 1 : -1`. -/
def squareDirX (sp : Point) (x : ℚ) : ℚ :=
  if x > sp.x then 1 else -1

/-- app.js line 148: vertical direction, `y > startPoint.y ? 1 : -1`. -/
def squareDirY (sp : Point) (y : ℚ) : ℚ :=
  if y > sp.y then 1 else -1

/-- app.js lines 135-165: restore to the last committed snapshot, then
stroke a rectangle from the anchor; for the square tool the width and
height are `size * dirX` and `size * dirY`.  Reading `this.startPoint.x`
with a null `startPoint` throws, hence the `Option`.  `strokeColor` and
`strokeWidth` are the context attributes set by `draw` (lines 112-113). -/
def drawRectangle (s : DrawingApp) (x y : ℚ) (isSquare : Bool)
    (strokeColor : String) (strokeWidth : Int) : Option DrawingApp :=
  match s.startPoint with
  | none => none
  | some sp =>
    let s := restoreLastState s
    if isSquare then
      let size := squareSize sp x y
      let dirX := squareDirX sp x
      let dirY := squareDirY sp y
      some { s with surface :=
        s.surface ++ [CanvasOp.strokeRect sp.x sp.y (size * dirX) (size * dirY)
          strokeColor strokeWidth] }
    else
      some { s with surface :=
        s.surface ++ [CanvasOp.strokeRect sp.x sp.y (x - sp.x) (y - sp.y)
          strokeColor strokeWidth] }

/-- app.js lines 170-173: the radius the source computes,
`Math.sqrt((x - startPoint.x)^2 + (y - startPoint.y)^2)`, as an exact
real. -/
noncomputable def circleRadius (sp : Point) (x y : ℚ) : ℝ :=
  Real.sqrt (((x : ℝ) - (sp.x : ℝ)) ^ 2 + ((y : ℝ) - (sp.y : ℝ)) ^ 2)

/-- app.js lines 168-178: restore to the last committed snapshot, then
stroke the circle centred at the anchor whose radius is the Euclidean
distance to the cursor; the op records the exact squared radius. -/
def drawCircle (s : DrawingApp) (x y : ℚ)
    (strokeColor : String) (strokeWidth : Int) : Option DrawingApp :=
  match s.startPoint with
  | none => none
  | some sp =>
    let s := restoreLastState s
    let rsq := (x - sp.x) ^ 2 + (y - sp.y) ^ 2
    some { s with surface :=
      s.surface ++ [CanvasOp.strokeCircleSq sp.x sp.y rsq strokeColor strokeWidth] }

/-- app.js lines 105-132: mousemove handler.  Returns immediately when no
gesture is active; otherwise sets the stroke style (white for the eraser)
and dispatches on the current tool. -/
def draw (s : DrawingApp) (x y : ℚ) : Option DrawingApp :=
  if s.isDrawing = false then some s
  else
    let strokeColor := if s.currentTool = Tool.eraser then "white" else s.color
    match s.currentTool with
    | Tool.pencil =>
        some { s with surface :=
          s.surface ++ [CanvasOp.lineSegTo x y strokeColor s.lineWidth] }
    | Tool.eraser =>
        some { s with surface :=
          s.surface ++ [CanvasOp.lineSegTo x y strokeColor s.lineWidth] }
    | Tool.rectangle => drawRectangle s x y false strokeColor s.lineWidth
    | Tool.square => drawRectangle s x y true strokeColor s.lineWidth
    | Tool.circle => drawCircle s x y strokeColor s.lineWidth

/-- app.js lines 181-192: mouseup/mouseout handler.  If a gesture is
active, end it; if the current tool is one of the five drawing tools (the
`includes` check at line 186), commit a snapshot; clear the anchor. -/
def stopDrawing (s : DrawingApp) : DrawingApp :=
  if s.isDrawing then
    let s1 := { s with isDrawing := false }
    let s2 :=
      if s1.currentTool ∈ [Tool.pencil, Tool.eraser, Tool.rectangle,
          Tool.square, Tool.circle] then
        saveCanvasState s1
      else s1
    { s2 with startPoint := none }
  else s

/-- app.js lines 195-208: if `history` has more than one entry, pop its
top onto `redoStack` and repaint the canvas with the new top. -/
def undo (s : DrawingApp) : DrawingApp :=
  match s.history with
  | currentState :: prevState :: rest =>
      { s with history := prevState :: rest
               redoStack := currentState :: s.redoStack
               surface := prevState }
  | _ => s

/-- app.js lines 211-223: if `redoStack` is non-empty, pop its top, push
it back onto `history`, and repaint the canvas with it. -/
def redo (s : DrawingApp) : DrawingApp :=
  match s.redoStack with
  | nextState :: rest =>
      { s with redoStack := rest
               history := nextState :: s.history
               surface := nextState }
  | [] => s

/-- app.js lines 226-230: paint the whole canvas white and commit that as
a new snapshot. -/
def clearCanvas (s : DrawingApp) : DrawingApp :=
  saveCanvasState { s with surface := s.surface ++ [CanvasOp.fillWhiteRect] }

/-- The UI events the app reacts to (app.js lines 50-77): canvas mouse
events, tool buttons, the color and width controls, and the undo, redo and
clear buttons.  The download button only reads state. -/
inductive Event
  | mouseDown (x y : ℚ)
  | mouseMove (x y : ℚ)
  | mouseUp
  | mouseOut
  | selectTool (tool : Tool)
  | pickColor (c : String)
  | pickWidth (w : Int)
  | clickUndo
  | clickRedo
  | clickClear
deriving DecidableEq, Repr

/-- Dispatch one event to its handler.  `mouseOut` is bound to the same
`stopDrawing` handler as `mouseUp` (app.js lines 75-76). -/
def step (s : DrawingApp) (e : Event) : Option DrawingApp :=
  match e with
  | Event.mouseDown x y => some (startDrawing s x y)
  | Event.mouseMove x y => draw s x y
  | Event.mouseUp => some (stopDrawing s)
  | Event.mouseOut => some (stopDrawing s)
  | Event.selectTool t => some (setTool s t)
  | Event.pickColor c => some { s with color := c }
  | Event.pickWidth w => some { s with lineWidth := w }
  | Event.clickUndo => some (undo s)
  | Event.clickRedo => some (redo s)
  | Event.clickClear => some (clearCanvas s)

/-- Run a sequence of events from a state, failing if any handler
throws. -/
def run (s : DrawingApp) : List Event → Option DrawingApp
  | [] => some s
  | e :: es =>
    match step s e with
    | none => none
    | some s' => run s' es

/-- A state the app can actually be in: reachable from the freshly
constructed app by some event sequence. -/
def Reachable (s : DrawingApp) : Prop :=
  ∃ es : List Event, run init es = some s

/-- One user-level action in the sense of the history-monotonicity
property: a completed gesture (tool selection, mousedown, any number of
mousemoves, mouseup) or a click of the clear button. -/
inductive Action
  | gesture (t : Tool) (sx sy : ℚ) (moves : List (ℚ × ℚ))
  | clearClick
deriving Repr

/-- The event sequence of one action. -/
def Action.events : Action → List Event
  | Action.gesture t sx sy moves =>
      Event.selectTool t :: Event.mouseDown sx sy ::
        ((moves.map fun q => Event.mouseMove q.1 q.2) ++ [Event.mouseUp])
  | Action.clearClick => [Event.clickClear]

/-- The event sequence of a list of actions, in order. -/
def actionsEvents (as : List Action) : List Event :=
  (as.map Action.events).flatten

/-- The state reached by clear, undo, mousedown at (0,0) with the default
pencil tool, and one mousemove to (1,1): a gesture is in progress, the
canvas holds a partial stroke not yet committed, and the redo stack is
non-empty. -/
def midGestureState : DrawingApp :=
  { undo (clearCanvas init) with
    isDrawing := true,
    startPoint := some ⟨0, 0⟩,
    surface := (undo (clearCanvas init)).surface ++
      [CanvasOp.lineSegTo 1 1 "#000000" 5] }

/-- The state invariant maintained by every handler: the history stack is
never empty, its bottom entry is the initial blank snapshot, outside of a
gesture the canvas shows the top history entry, and during a gesture the
anchor is recorded. -/
def Inv (s : DrawingApp) : Prop :=
  s.history ≠ [] ∧
  s.history.getLast? = some blankSurface ∧
  (s.isDrawing = false → s.history.head? = some s.surface) ∧
  (s.isDrawing = true → s.startPoint ≠ none)

theorem tool_mem (t : Tool) :
    t ∈ [Tool.pencil, Tool.eraser, Tool.rectangle, Tool.square, Tool.circle] := by
  cases t <;> simp

theorem restoreLastState_eq (s : DrawingApp) :
    ∃ srf, restoreLastState s = { s with surface := srf } := by
  obtain ⟨d, tl, c, w, p, srf, hist, r⟩ := s
  cases hist with
  | nil => exact ⟨srf, rfl⟩
  | cons a l => exact ⟨a, rfl⟩

theorem restoreLastState_cons {s : DrawingApp} {hd : Surface}
    {tl : List Surface} (h : s.history = hd :: tl) :
    restoreLastState s = { s with surface := hd } := by
  unfold restoreLastState
  rw [h]

theorem stopDrawing_of_active {s : DrawingApp} (h : s.isDrawing = true) :
    stopDrawing s =
      { s with isDrawing := false,
               startPoint := none,
               history := s.surface :: s.history,
               redoStack := [] } := by
  cases hT : s.currentTool <;>
    simp [stopDrawing, h, saveCanvasState, hT]

theorem stopDrawing_of_idle {s : DrawingApp} (h : s.isDrawing = false) :
    stopDrawing s = s := by
  simp [stopDrawing, h]

theorem undo_of_big {s : DrawingApp} {c p : Surface} {rest : List Surface}
    (h : s.history = c :: p :: rest) :
    undo s =
      { s with history := p :: rest,
               redoStack := c :: s.redoStack,
               surface := p } := by
  unfold undo
  rw [h]

theorem undo_of_small {s : DrawingApp} (h : s.history.length ≤ 1) :
    undo s = s := by
  unfold undo
  cases hh : s.history with
  | nil => rfl
  | cons c rest =>
    cases rest with
    | nil => rfl
    | cons p rest' => rw [hh] at h; simp at h

theorem redo_of_cons {s : DrawingApp} {n : Surface} {rest : List Surface}
    (h : s.redoStack = n :: rest) :
    redo s =
      { s with redoStack := rest,
               history := n :: s.history,
               surface := n } := by
  unfold redo
  rw [h]

theorem redo_of_nil {s : DrawingApp} (h : s.redoStack = []) :
    redo s = s := by
  unfold redo
  rw [h]

theorem clearCanvas_eq (s : DrawingApp) :
    clearCanvas s =
      { s with surface := s.surface ++ [CanvasOp.fillWhiteRect],
               history := (s.surface ++ [CanvasOp.fillWhiteRect]) :: s.history,
               redoStack := [] } := rfl

theorem draw_of_idle {s : DrawingApp} (h : s.isDrawing = false) (x y : ℚ) :
    draw s x y = some s := by
  simp [draw, h]

/-- A successful mousemove never touches the gesture flags, the style, or
the two stacks: only the canvas contents change. -/
theorem draw_fields {s s' : DrawingApp} {x y : ℚ} (h : draw s x y = some s') :
    s'.isDrawing = s.isDrawing ∧ s'.currentTool = s.currentTool ∧
    s'.startPoint = s.startPoint ∧ s'.history = s.history ∧
    s'.redoStack = s.redoStack ∧ s'.color = s.color ∧
    s'.lineWidth = s.lineWidth := by
  by_cases hD : s.isDrawing = false
  · rw [draw_of_idle hD] at h
    injection h with h
    subst h
    exact ⟨rfl, rfl, rfl, rfl, rfl, rfl, rfl⟩
  · rw [Bool.not_eq_false] at hD
    obtain ⟨srf0, hr⟩ := restoreLastState_eq s
    simp only [draw, hD, Bool.true_eq_false, if_false] at h
    cases hT : s.currentTool <;> simp only [hT] at h
    · injection h with h
      subst h
      simp [hD, hT]
    · injection h with h
      subst h
      simp [hD, hT]
    · cases hP : s.startPoint with
      | none => simp [drawRectangle, hP] at h
      | some sp =>
        simp only [drawRectangle, hP, hr] at h
        injection h with h
        subst h
        simp [hD, hT, hP]
    · cases hP : s.startPoint with
      | none => simp [drawRectangle, hP] at h
      | some sp =>
        simp only [drawRectangle, hP, hr] at h
        injection h with h
        subst h
        simp [hD, hT, hP]
    · cases hP : s.startPoint with
      | none => simp [drawCircle, hP] at h
      | some sp =>
        simp only [drawCircle, hP, hr] at h
        injection h with h
        subst h
        simp [hD, hT, hP]

theorem inv_init : Inv init := by
  refine ⟨?_, ?_, ?_, ?_⟩ <;> decide

theorem step_inv {s s' : DrawingApp} {e : Event}
    (hs : Inv s) (h : step s e = some s') : Inv s' := by
  obtain ⟨h1, h2, h3, h4⟩ := hs
  obtain ⟨b, t, hbt⟩ : ∃ b t, s.history = b :: t := by
    cases hh : s.history with
    | nil => exact absurd hh h1
    | cons b t => exact ⟨b, t, rfl⟩
  cases e with
  | mouseDown x y =>
    simp only [step] at h
    injection h with h
    subst h
    exact ⟨h1, h2, by simp [startDrawing], by simp [startDrawing]⟩
  | mouseMove x y =>
    simp only [step] at h
    obtain ⟨f1, f2, f3, f4, f5, f6, f7⟩ := draw_fields h
    by_cases hD : s.isDrawing = true
    · refine ⟨f4 ▸ h1, f4 ▸ h2, ?_, ?_⟩
      · intro hf
        rw [f1, hD] at hf
        exact absurd hf (by simp)
      · intro _
        rw [f3]
        exact h4 hD
    · have hD' : s.isDrawing = false := by simpa using hD
      rw [draw_of_idle hD'] at h
      injection h with h
      subst h
      exact ⟨h1, h2, h3, h4⟩
  | mouseUp =>
    simp only [step] at h
    injection h with h
    subst h
    by_cases hD : s.isDrawing = true
    · rw [stopDrawing_of_active hD]
      refine ⟨by simp, ?_, by simp, by simp⟩
      show (s.surface :: s.history).getLast? = some blankSurface
      rw [hbt, List.getLast?_cons_cons, ← hbt]
      exact h2
    · rw [stopDrawing_of_idle (by simpa using hD)]
      exact ⟨h1, h2, h3, h4⟩
  | mouseOut =>
    simp only [step] at h
    injection h with h
    subst h
    by_cases hD : s.isDrawing = true
    · rw [stopDrawing_of_active hD]
      refine ⟨by simp, ?_, by simp, by simp⟩
      show (s.surface :: s.history).getLast? = some blankSurface
      rw [hbt, List.getLast?_cons_cons, ← hbt]
      exact h2
    · rw [stopDrawing_of_idle (by simpa using hD)]
      exact ⟨h1, h2, h3, h4⟩
  | selectTool t =>
    simp only [step, setTool] at h
    injection h with h
    subst h
    exact ⟨h1, h2, h3, h4⟩
  | pickColor c =>
    simp only [step] at h
    injection h with h
    subst h
    exact ⟨h1, h2, h3, h4⟩
  | pickWidth w =>
    simp only [step] at h
    injection h with h
    subst h
    exact ⟨h1, h2, h3, h4⟩
  | clickUndo =>
    simp only [step] at h
    injection h with h
    subst h
    cases hh : s.history with
    | nil => exact absurd hh h1
    | cons c rest =>
      cases rest with
      | nil =>
        rw [undo_of_small (by rw [hh]; simp)]
        exact ⟨h1, h2, h3, h4⟩
      | cons p rest' =>
        rw [undo_of_big hh]
        refine ⟨by simp, ?_, by simp, h4⟩
        show (p :: rest').getLast? = some blankSurface
        rw [hh, List.getLast?_cons_cons] at h2
        exact h2
  | clickRedo =>
    simp only [step] at h
    injection h with h
    subst h
    cases hr : s.redoStack with
    | nil =>
      rw [redo_of_nil hr]
      exact ⟨h1, h2, h3, h4⟩
    | cons n rest =>
      rw [redo_of_cons hr]
      refine ⟨by simp, ?_, by simp, h4⟩
      show (n :: s.history).getLast? = some blankSurface
      rw [hbt, List.getLast?_cons_cons, ← hbt]
      exact h2
  | clickClear =>
    simp only [step] at h
    injection h with h
    subst h
    rw [clearCanvas_eq]
    refine ⟨by simp, ?_, by simp, h4⟩
    show ((s.surface ++ [CanvasOp.fillWhiteRect]) :: s.history).getLast? =
      some blankSurface
    rw [hbt, List.getLast?_cons_cons, ← hbt]
    exact h2

theorem run_inv : ∀ (es : List Event) (s s' : DrawingApp),
    Inv s → run s es = some s' → Inv s' := by
  intro es
  induction es with
  | nil =>
    intro s s' hs h
    simp only [run] at h
    injection h with h
    exact h ▸ hs
  | cons e es ih =>
    intro s s' hs h
    simp only [run] at h
    cases hstep : step s e with
    | none => rw [hstep] at h; exact absurd h (by simp)
    | some s1 =>
      rw [hstep] at h
      exact ih s1 s' (step_inv hs hstep) h

theorem reachable_inv {s : DrawingApp} (h : Reachable s) : Inv s := by
  obtain ⟨es, hes⟩ := h
  exact run_inv es init s inv_init hes

theorem run_cons (s : DrawingApp) (e : Event) (es : List Event) :
    run s (e :: es) = (step s e).bind fun s1 => run s1 es := by
  cases h : step s e <;> simp [run, h]

theorem run_append (es1 es2 : List Event) : ∀ s : DrawingApp,
    run s (es1 ++ es2) = (run s es1).bind fun s1 => run s1 es2 := by
  induction es1 with
  | nil => intro s; simp [run]
  | cons e es ih =>
    intro s
    cases h : step s e with
    | none => simp [run, h]
    | some s1 => simp [run, h, ih]

theorem draw_isSome {s : DrawingApp} (hD : s.isDrawing = true)
    (hP : s.startPoint ≠ none) (x y : ℚ) : (draw s x y).isSome = true := by
  obtain ⟨sp, hsp⟩ : ∃ sp, s.startPoint = some sp := by
    cases hp : s.startPoint with
    | none => exact absurd hp hP
    | some sp => exact ⟨sp, rfl⟩
  obtain ⟨srf0, hr⟩ := restoreLastState_eq s
  cases hT : s.currentTool <;>
    simp [draw, hD, hT, drawRectangle, drawCircle, hsp, hr]

theorem undo_iter_ne : ∀ (n : ℕ) (s : DrawingApp), s.history ≠ [] →
    (undo^[n] s).history ≠ [] := by
  intro n
  induction n with
  | zero => intro s h; simpa using h
  | succ n ih =>
    intro s h
    rw [Function.iterate_succ_apply]
    apply ih
    cases hh : s.history with
    | nil => exact absurd hh h
    | cons c t =>
      cases t with
      | nil =>
        rw [undo_of_small (by rw [hh]; simp), hh]
        simp
      | cons p t' =>
        rw [undo_of_big hh]
        simp

theorem undo_iter_fix : ∀ (n : ℕ) (s : DrawingApp) (b : Surface),
    s.history ≠ [] → s.history.getLast? = some b →
    s.history.head? = some s.surface → s.history.length - 1 ≤ n →
    (undo^[n] s).history = [b] ∧ (undo^[n] s).surface = b := by
  intro n
  induction n with
  | zero =>
    intro s b h1 h2 h3 hl
    cases hh : s.history with
    | nil => exact absurd hh h1
    | cons c t =>
      cases t with
      | nil =>
        rw [hh] at h2 h3
        simp only [List.getLast?_singleton] at h2
        simp only [List.head?_cons] at h3
        have hcb : c = b := Option.some_inj.mp h2
        have hcs : c = s.surface := Option.some_inj.mp h3
        rw [Function.iterate_zero_apply]
        exact ⟨by rw [hh, hcb], by rw [← hcs, hcb]⟩
      | cons p t' =>
        rw [hh] at hl
        simp at hl
  | succ n ih =>
    intro s b h1 h2 h3 hl
    cases hh : s.history with
    | nil => exact absurd hh h1
    | cons c t =>
      cases t with
      | nil =>
        rw [Function.iterate_succ_apply, undo_of_small (by rw [hh]; simp)]
        exact ih s b h1 h2 h3 (by rw [hh]; simp)
      | cons p t' =>
        rw [Function.iterate_succ_apply, undo_of_big hh]
        apply ih
        · simp
        · show (p :: t').getLast? = some b
          rw [hh, List.getLast?_cons_cons] at h2
          exact h2
        · simp
        · rw [hh] at hl
          simp only [List.length_cons] at hl ⊢
          omega

/-- C1: in every reachable state, `undo` is a no-op when `history` holds
only the initial entry; otherwise it moves the current top of `history`
onto `redoStack` and repaints with the new top; iterating `undo` any
number of times never empties `history`, and running it at least
`history.length - 1` times from a quiescent state stabilizes at the
initial blank snapshot. -/
theorem C1_undo_floor {s : DrawingApp} (hs : Reachable s) :
    (∀ n : ℕ, (undo^[n] s).history ≠ []) ∧
    (s.history.length ≤ 1 → undo s = s) ∧
    (∀ (c p : Surface) (rest : List Surface), s.history = c :: p :: rest →
      undo s = { s with history := p :: rest,
                        redoStack := c :: s.redoStack,
                        surface := p }) ∧
    (s.isDrawing = false → ∀ n : ℕ, s.history.length - 1 ≤ n →
      (undo^[n] s).history = [blankSurface] ∧
      (undo^[n] s).surface = blankSurface) := by
  obtain ⟨h1, h2, h3, h4⟩ := reachable_inv hs
  exact ⟨fun n => undo_iter_ne n s h1,
    fun hl => undo_of_small hl,
    fun c p rest hh => undo_of_big hh,
    fun hq n hn => undo_iter_fix n s blankSurface h1 h2 (h3 hq) hn⟩

/-- Witness for C1: after one clear, five undos (far more than the one
committed action) land on the blank snapshot with a singleton history. -/
theorem C1_undo_floor_witness :
    (undo^[5] (clearCanvas init)).history = [blankSurface] ∧
    (undo^[5] (clearCanvas init)).surface = blankSurface :=
  (C1_undo_floor ⟨[Event.clickClear], rfl⟩).2.2.2 rfl 5 (by decide)

/-- C2: pushing a new snapshot (`saveCanvasState`, reached by every
completed gesture and by clear) resets the redo stack to the empty array,
whatever it held before. -/
theorem C2_push_clears_redo :
    (∀ s : DrawingApp, (saveCanvasState s).redoStack = [] ∧
      (saveCanvasState s).history = s.surface :: s.history) ∧
    (∀ s : DrawingApp, (clearCanvas s).redoStack = []) ∧
    (∀ s : DrawingApp, s.isDrawing = true → (stopDrawing s).redoStack = []) := by
  refine ⟨fun s => ⟨rfl, rfl⟩, fun s => rfl, fun s h => ?_⟩
  rw [stopDrawing_of_active h]

/-- Witness for C2 at a state whose redo stack is non-empty (one clear
followed by one undo). -/
theorem C2_push_clears_redo_witness :
    (saveCanvasState (undo (clearCanvas init))).redoStack = [] ∧
    (clearCanvas (undo (clearCanvas init))).redoStack = [] ∧
    (stopDrawing (startDrawing (undo (clearCanvas init)) 1 2)).redoStack = [] :=
  ⟨(C2_push_clears_redo.1 _).1, C2_push_clears_redo.2.1 _,
    C2_push_clears_redo.2.2 _ rfl⟩

/-- C9: a mousemove with no active gesture and a mouseup in the idle state
are silent no-ops: the whole state (surface, gesture state, both stacks)
is returned unchanged and no error is raised. -/
theorem C9_idle_events_noop :
    (∀ (s : DrawingApp) (x y : ℚ), s.isDrawing = false → draw s x y = some s) ∧
    (∀ s : DrawingApp, s.isDrawing = false → stopDrawing s = s) :=
  ⟨fun _ x y h => draw_of_idle h x y, fun _ h => stopDrawing_of_idle h⟩

/-- Witness for C9 at the freshly constructed app. -/
theorem C9_idle_events_noop_witness :
    draw init 3 4 = some init ∧ stopDrawing init = init :=
  ⟨C9_idle_events_noop.1 init 3 4 rfl, C9_idle_events_noop.2 init rfl⟩

/-- C10: in every reachable state an active gesture has a recorded anchor
(the flag and the anchor are set together at mousedown and cleared
together at gesture end), so the mousemove dispatch, and with it
`drawRectangle` and `drawCircle`, never dereferences a null
`startPoint`. -/
theorem C10_anchor_nonnull {s : DrawingApp} (hs : Reachable s) :
    (s.isDrawing = true → s.startPoint ≠ none) ∧
    (∀ x y : ℚ, (draw s x y).isSome = true) := by
  obtain ⟨h1, h2, h3, h4⟩ := reachable_inv hs
  refine ⟨h4, fun x y => ?_⟩
  by_cases hD : s.isDrawing = true
  · exact draw_isSome hD (h4 hD) x y
  · have hD' : s.isDrawing = false := by simpa using hD
    rw [draw_of_idle hD']
    rfl

/-- Witness for C10 at the state just after a mousedown. -/
theorem C10_anchor_nonnull_witness :
    (startDrawing init 1 2).startPoint.isSome = true ∧
    (draw (startDrawing init 1 2) 3 4).isSome = true :=
  have h := C10_anchor_nonnull (s := startDrawing init 1 2)
    ⟨[Event.mouseDown 1 2], rfl⟩
  ⟨Option.isSome_iff_ne_none.mpr (h.1 rfl), h.2 3 4⟩

/-- C4 counterexample: in the reachable state `midGestureState` (clear,
undo, mousedown, one pencil mousemove) the redo stack is non-empty, yet
`redo` followed by `undo` does not leave the state as it was: the pair
repaints the canvas from the top snapshot, discarding the uncommitted
partial stroke, so the surface content differs. -/
theorem C4_not_inverse_mid_gesture :
    run init [Event.clickClear, Event.clickUndo, Event.mouseDown 0 0,
        Event.mouseMove 1 1] = some midGestureState ∧
    midGestureState.redoStack ≠ [] ∧
    undo (redo midGestureState) ≠ midGestureState ∧
    (undo (redo midGestureState)).surface ≠ midGestureState.surface :=
  ⟨rfl, by decide, by decide, by decide⟩

/-- C4 amended: in any reachable *quiescent* state (no gesture in
progress, so the canvas shows the top history entry), `redo` followed by
`undo` is the identity whenever the redo stack is non-empty, and `undo`
followed by `redo` is the identity whenever history has more than the
initial entry — both stacks and the surface are restored exactly. -/
theorem C4_undo_redo_inverse {s : DrawingApp} (hs : Reachable s)
    (hq : s.isDrawing = false) :
    (s.redoStack ≠ [] → undo (redo s) = s) ∧
    (1 < s.history.length → redo (undo s) = s) := by
  obtain ⟨h1, h2, h3, h4⟩ := reachable_inv hs
  have hhead : s.history.head? = some s.surface := h3 hq
  obtain ⟨d, tool, col, w, p0, srf, hist, rstk⟩ := s
  constructor
  · intro hr
    cases hist with
    | nil => exact absurd rfl h1
    | cons c t =>
      cases rstk with
      | nil => exact absurd rfl hr
      | cons r rs =>
        have hcs : c = srf := by simpa using hhead
        subst hcs
        rfl
  · intro hl
    cases hist with
    | nil => exact absurd rfl h1
    | cons c t =>
      cases t with
      | nil => simp at hl
      | cons p t' =>
        have hcs : c = srf := by simpa using hhead
        subst hcs
        rfl

/-- Witness for C4 at the state reached by two clears and one undo, where
the redo stack is non-empty and history still has two entries. -/
theorem C4_undo_redo_inverse_witness :
    undo (redo (undo (clearCanvas (clearCanvas init)))) =
      undo (clearCanvas (clearCanvas init)) ∧
    redo (undo (undo (clearCanvas (clearCanvas init)))) =
      undo (clearCanvas (clearCanvas init)) :=
  have h := C4_undo_redo_inverse
    (s := undo (clearCanvas (clearCanvas init)))
    ⟨[Event.clickClear, Event.clickClear, Event.clickUndo], rfl⟩ rfl
  ⟨h.1 (by decide), h.2 (by decide)⟩

/-- C6: the square tool strokes a rectangle both of whose dimensions have
magnitude `min |dx| |dy|` of the raw deltas, each preserving the direction
of its own raw delta; from anchor (0,0) to cursor (30,-10) it strokes the
rectangle with width 10 and height -10. -/
theorem C6_square_constraint :
    (∀ (sp : Point) (x y : ℚ),
      |squareSize sp x y * squareDirX sp x| = min |x - sp.x| |y - sp.y| ∧
      |squareSize sp x y * squareDirY sp y| = min |x - sp.x| |y - sp.y| ∧
      0 ≤ squareSize sp x y * squareDirX sp x * (x - sp.x) ∧
      0 ≤ squareSize sp x y * squareDirY sp y * (y - sp.y)) ∧
    drawRectangle (startDrawing init 0 0) 30 (-10) true "#000000" 5 =
      some { startDrawing init 0 0 with
             surface := blankSurface ++
               [CanvasOp.strokeRect 0 0 10 (-10) "#000000" 5] } := by
  constructor
  · intro sp x y
    have hsize : 0 ≤ squareSize sp x y := le_min (abs_nonneg _) (abs_nonneg _)
    have hdx : |squareDirX sp x| = 1 := by
      unfold squareDirX
      split <;> simp
    have hdy : |squareDirY sp y| = 1 := by
      unfold squareDirY
      split <;> simp
    refine ⟨?_, ?_, ?_, ?_⟩
    · rw [abs_mul, hdx, mul_one, abs_of_nonneg hsize]
      rfl
    · rw [abs_mul, hdy, mul_one, abs_of_nonneg hsize]
      rfl
    · unfold squareDirX
      by_cases hx : x > sp.x
      · rw [if_pos hx, mul_one]
        exact mul_nonneg hsize (le_of_lt (sub_pos.mpr hx))
      · rw [if_neg hx]
        push_neg at hx
        have hd : x - sp.x ≤ 0 := sub_nonpos.mpr hx
        nlinarith [mul_nonneg hsize (neg_nonneg.mpr hd)]
    · unfold squareDirY
      by_cases hy : y > sp.y
      · rw [if_pos hy, mul_one]
        exact mul_nonneg hsize (le_of_lt (sub_pos.mpr hy))
      · rw [if_neg hy]
        push_neg at hy
        have hd : y - sp.y ≤ 0 := sub_nonpos.mpr hy
        nlinarith [mul_nonneg hsize (neg_nonneg.mpr hd)]
  · have h1 : drawRectangle (startDrawing init 0 0) 30 (-10) true "#000000" 5 =
        some { startDrawing init 0 0 with
               surface := blankSurface ++
                 [CanvasOp.strokeRect 0 0
                   (squareSize ⟨0, 0⟩ 30 (-10) * squareDirX ⟨0, 0⟩ 30)
                   (squareSize ⟨0, 0⟩ 30 (-10) * squareDirY ⟨0, 0⟩ (-10))
                   "#000000" 5] } := rfl
    rw [h1]
    norm_num [squareSize, squareDirX, squareDirY, abs, min_def]

/-- C7: the circle tool's radius is the Euclidean distance from the anchor
to the cursor (it is nonnegative and its square is the squared distance);
from anchor (50,50) to cursor (53,54) the radius is exactly 5, and the
stroked circle op is centred at the anchor with squared radius 25. -/
theorem C7_circle_radius :
    (∀ (sp : Point) (x y : ℚ),
      0 ≤ circleRadius sp x y ∧
      circleRadius sp x y ^ 2 =
        ((x : ℝ) - (sp.x : ℝ)) ^ 2 + ((y : ℝ) - (sp.y : ℝ)) ^ 2) ∧
    circleRadius ⟨50, 50⟩ 53 54 = 5 ∧
    drawCircle (startDrawing init 50 50) 53 54 "#000000" 5 =
      some { startDrawing init 50 50 with
             surface := blankSurface ++
               [CanvasOp.strokeCircleSq 50 50 25 "#000000" 5] } := by
  refine ⟨fun sp x y => ⟨Real.sqrt_nonneg _, Real.sq_sqrt (by positivity)⟩,
    ?_, ?_⟩
  · show Real.sqrt ((((53 : ℚ) : ℝ) - ((50 : ℚ) : ℝ)) ^ 2 +
      (((54 : ℚ) : ℝ) - ((50 : ℚ) : ℝ)) ^ 2) = 5
    have h25 : (((53 : ℚ) : ℝ) - ((50 : ℚ) : ℝ)) ^ 2 +
        (((54 : ℚ) : ℝ) - ((50 : ℚ) : ℝ)) ^ 2 = 5 ^ 2 := by
      norm_num
    rw [h25, Real.sqrt_sq (by norm_num)]
  · have h1 : drawCircle (startDrawing init 50 50) 53 54 "#000000" 5 =
        some { startDrawing init 50 50 with
               surface := blankSurface ++
                 [CanvasOp.strokeCircleSq 50 50
                   (((53 : ℚ) - 50) ^ 2 + ((54 : ℚ) - 50) ^ 2)
                   "#000000" 5] } := rfl
    rw [h1]
    norm_num

/-- C8 counterexample: a gesture begins under the default pencil tool, the
tool is switched to rectangle mid-gesture, and the next mousemove strokes
a rectangle — the gesture is not dispatched to the tool that was active at
gesture start (which would have appended a freehand segment), because
`startDrawing` records no tool and `draw` reads the live `currentTool`. -/
theorem C8_tool_not_snapshotted :
    init.currentTool = Tool.pencil ∧
    (run init [Event.mouseDown 0 0, Event.selectTool Tool.rectangle,
        Event.mouseMove 3 4, Event.mouseUp]).map (fun s => s.surface) =
      some [CanvasOp.fillWhiteRect,
        CanvasOp.strokeRect 0 0 3 4 "#000000" 5] ∧
    (run init [Event.mouseDown 0 0, Event.selectTool Tool.rectangle,
        Event.mouseMove 3 4, Event.mouseUp]).map (fun s => s.surface) ≠
      some [CanvasOp.fillWhiteRect,
        CanvasOp.lineSegTo 3 4 "#000000" 5] := by
  have h1 : (run init [Event.mouseDown 0 0, Event.selectTool Tool.rectangle,
      Event.mouseMove 3 4, Event.mouseUp]).map (fun s => s.surface) =
      some [CanvasOp.fillWhiteRect,
        CanvasOp.strokeRect 0 0 ((3 : ℚ) - 0) ((4 : ℚ) - 0) "#000000" 5] := rfl
  refine ⟨rfl, ?_, ?_⟩
  · rw [h1]
    norm_num
  · intro h
    rw [h1] at h
    simp at h

/-- C8 amended: at mousedown the gesture state records only the active
flag and the anchor — no tool identifier — and every mousemove of the
gesture dispatches on the tool selected at that moment, so a tool change
mid-gesture redirects the remaining moves to the new tool's behavior. -/
theorem C8_live_tool_dispatch :
    (∀ (s : DrawingApp) (x y : ℚ),
      startDrawing s x y =
        { s with isDrawing := true, startPoint := some ⟨x, y⟩ }) ∧
    (∀ px py qx qy : ℚ,
      (run init [Event.mouseDown px py, Event.selectTool Tool.rectangle,
          Event.mouseMove qx qy, Event.mouseUp]).map (fun s => s.surface) =
        some [CanvasOp.fillWhiteRect,
          CanvasOp.strokeRect px py (qx - px) (qy - py) "#000000" 5]) :=
  ⟨fun _ _ _ => rfl, fun _ _ _ _ => rfl⟩

/-- During an active rectangle gesture, one mousemove restores the canvas
to the top history entry and strokes the rectangle from the anchor to the
cursor. -/
theorem draw_rect_eq {s : DrawingApp} {a : Point} {hd : Surface}
    {tl : List Surface} (hD : s.isDrawing = true)
    (hT : s.currentTool = Tool.rectangle) (hP : s.startPoint = some a)
    (hH : s.history = hd :: tl) (x y : ℚ) :
    draw s x y = some { s with surface :=
      hd ++ [CanvasOp.strokeRect a.x a.y (x - a.x) (y - a.y)
        s.color s.lineWidth] } := by
  simp [draw, hD, hT, drawRectangle, hP, restoreLastState_cons hH]

/-- Iterating mousemoves during a rectangle gesture: every frame is the
top history entry plus a single rectangle, and only the last move's
rectangle survives. -/
theorem rect_moves_aux : ∀ (moves : List (ℚ × ℚ)) (m : ℚ × ℚ)
    (s : DrawingApp) (a : Point) (hd : Surface) (tl : List Surface),
    s.isDrawing = true → s.currentTool = Tool.rectangle →
    s.startPoint = some a → s.history = hd :: tl →
    run s ((m :: moves).map fun q => Event.mouseMove q.1 q.2) =
      some { s with surface := hd ++ [CanvasOp.strokeRect a.x a.y
        ((moves.getLastD m).1 - a.x) ((moves.getLastD m).2 - a.y)
        s.color s.lineWidth] } := by
  intro moves
  induction moves with
  | nil =>
    intro m s a hd tl hD hT hP hH
    rw [List.map_cons, List.map_nil, run_cons]
    simp only [step]
    rw [draw_rect_eq hD hT hP hH]
    simp only [Option.some_bind, run, List.getLastD_nil]
  | cons m' moves' ih =>
    intro m s a hd tl hD hT hP hH
    rw [List.map_cons, run_cons]
    simp only [step]
    rw [draw_rect_eq hD hT hP hH]
    simp only [Option.some_bind]
    rw [List.getLastD_cons]
    exact ih m' { s with surface := hd ++
      [CanvasOp.strokeRect a.x a.y (m.1 - a.x) (m.2 - a.y)
        s.color s.lineWidth] } a hd tl hD hT hP hH

/-- During an active circle gesture, one mousemove restores the canvas to
the top history entry and strokes the circle centred at the anchor. -/
theorem draw_circle_eq {s : DrawingApp} {a : Point} {hd : Surface}
    {tl : List Surface} (hD : s.isDrawing = true)
    (hT : s.currentTool = Tool.circle) (hP : s.startPoint = some a)
    (hH : s.history = hd :: tl) (x y : ℚ) :
    draw s x y = some { s with surface :=
      hd ++ [CanvasOp.strokeCircleSq a.x a.y
        ((x - a.x) ^ 2 + (y - a.y) ^ 2) s.color s.lineWidth] } := by
  simp [draw, hD, hT, drawCircle, hP, restoreLastState_cons hH]

/-- C3: every rectangle or circle preview frame is the top history entry
plus the single freshly stroked shape (the restore erases the previous
preview frame of the same gesture); consequently from any state in the
middle of a rectangle gesture (anchor `a`, top history entry `hd`), any
non-empty run of mousemoves followed by mouseup produces a final surface
equal to `hd` plus the single rectangle of the last move, and commits
exactly one new snapshot: the new history is that surface consed onto the
old history. -/
theorem C3_preview_non_leakage :
    (∀ (s : DrawingApp) (a : Point) (hd : Surface) (tl : List Surface)
        (m : ℚ × ℚ) (moves : List (ℚ × ℚ)),
      s.isDrawing = true → s.currentTool = Tool.rectangle →
      s.startPoint = some a → s.history = hd :: tl →
      ((run s (((m :: moves).map fun q => Event.mouseMove q.1 q.2) ++
          [Event.mouseUp])).map fun t => (t.surface, t.history)) =
        some (hd ++ [CanvasOp.strokeRect a.x a.y
            ((moves.getLastD m).1 - a.x) ((moves.getLastD m).2 - a.y)
            s.color s.lineWidth],
          (hd ++ [CanvasOp.strokeRect a.x a.y
            ((moves.getLastD m).1 - a.x) ((moves.getLastD m).2 - a.y)
            s.color s.lineWidth]) :: s.history)) ∧
    (∀ (s : DrawingApp) (a : Point) (hd : Surface) (tl : List Surface)
        (x y : ℚ),
      s.isDrawing = true → s.currentTool = Tool.circle →
      s.startPoint = some a → s.history = hd :: tl →
      draw s x y = some { s with surface :=
        hd ++ [CanvasOp.strokeCircleSq a.x a.y
          ((x - a.x) ^ 2 + (y - a.y) ^ 2) s.color s.lineWidth] }) := by
  constructor
  · intro s a hd tl m moves hD hT hP hH
    rw [run_append, rect_moves_aux moves m s a hd tl hD hT hP hH]
    simp only [Option.some_bind, run, step]
    rw [stopDrawing_of_active (s := { s with surface := hd ++
      [CanvasOp.strokeRect a.x a.y ((moves.getLastD m).1 - a.x)
        ((moves.getLastD m).2 - a.y) s.color s.lineWidth] }) hD]
    simp
  · intro s a hd tl x y hD hT hP hH
    exact draw_circle_eq hD hT hP hH x y

/-- Witness for C3: a rectangle gesture from anchor (0,0) with five
mousemoves then mouseup leaves exactly one new snapshot and only the last
rectangle on the surface; one circle preview frame from anchor (50,50)
shows only the blank snapshot plus the fresh circle. -/
theorem C3_preview_non_leakage_witness :
    (((run (startDrawing (setTool init Tool.rectangle) 0 0)
        (([((1 : ℚ), (1 : ℚ)), (2, 2), (3, 3), (4, 4), (5, 5)].map fun q =>
          Event.mouseMove q.1 q.2) ++ [Event.mouseUp])).map
        fun t => (t.surface, t.history)) =
      some ([CanvasOp.fillWhiteRect] ++
          [CanvasOp.strokeRect 0 0 ((5 : ℚ) - 0) ((5 : ℚ) - 0) "#000000" 5],
        ([CanvasOp.fillWhiteRect] ++
          [CanvasOp.strokeRect 0 0 ((5 : ℚ) - 0) ((5 : ℚ) - 0) "#000000" 5]) ::
          [[CanvasOp.fillWhiteRect]])) ∧
    draw (startDrawing (setTool init Tool.circle) 50 50) 53 54 =
      some { startDrawing (setTool init Tool.circle) 50 50 with
             surface := [CanvasOp.fillWhiteRect] ++
               [CanvasOp.strokeCircleSq 50 50
                 (((53 : ℚ) - 50) ^ 2 + ((54 : ℚ) - 50) ^ 2) "#000000" 5] } :=
  ⟨C3_preview_non_leakage.1 _ _ _ _ (1, 1) [(2, 2), (3, 3), (4, 4), (5, 5)]
      rfl rfl rfl rfl,
    C3_preview_non_leakage.2 _ _ _ _ 53 54 rfl rfl rfl rfl⟩

/-- Any run of mousemoves during an active gesture with a recorded anchor
succeeds and leaves the gesture state, the style, and both stacks
untouched. -/
theorem moves_run : ∀ (moves : List (ℚ × ℚ)) (s : DrawingApp),
    s.isDrawing = true → s.startPoint ≠ none →
    ∃ s' : DrawingApp,
      run s (moves.map fun q => Event.mouseMove q.1 q.2) = some s' ∧
      s'.isDrawing = true ∧ s'.startPoint = s.startPoint ∧
      s'.history = s.history ∧ s'.currentTool = s.currentTool := by
  intro moves
  induction moves with
  | nil =>
    intro s hD hP
    exact ⟨s, rfl, hD, rfl, rfl, rfl⟩
  | cons m ms ih =>
    intro s hD hP
    obtain ⟨s1, hs1⟩ := Option.isSome_iff_exists.mp (draw_isSome hD hP m.1 m.2)
    obtain ⟨f1, f2, f3, f4, f5, f6, f7⟩ := draw_fields hs1
    obtain ⟨s', hrun, hD', hP', hH', hT'⟩ :=
      ih s1 (f1.trans hD) (by rw [f3]; exact hP)
    refine ⟨s', ?_, hD', hP'.trans f3, hH'.trans f4, hT'.trans f2⟩
    rw [List.map_cons, run_cons]
    simp only [step, hs1, Option.some_bind]
    exact hrun

/-- Running one action (a completed gesture or a clear) from a quiescent
state with a non-empty history succeeds, pushes exactly one new snapshot,
and returns to the quiescent state. -/
theorem action_run (a : Action) (s : DrawingApp)
    (hq : s.isDrawing = false) :
    ∃ s' : DrawingApp, run s a.events = some s' ∧
      s'.history.length = s.history.length + 1 ∧ s'.isDrawing = false := by
  cases a with
  | clearClick =>
    exact ⟨clearCanvas s, rfl, by simp [clearCanvas_eq], hq⟩
  | gesture t sx sy moves =>
    obtain ⟨s3, hrun3, hD3, hP3, hH3, hT3⟩ :=
      moves_run moves (startDrawing (setTool s t) sx sy) rfl (by simp [startDrawing])
    refine ⟨{ s3 with isDrawing := false,
                      startPoint := none,
                      history := s3.surface :: s3.history,
                      redoStack := [] }, ?_, ?_, rfl⟩
    · show run s (Event.selectTool t :: Event.mouseDown sx sy ::
        ((moves.map fun q => Event.mouseMove q.1 q.2) ++ [Event.mouseUp])) = some _
      rw [run_cons]
      simp only [step, Option.some_bind]
      rw [run_cons]
      simp only [step, Option.some_bind]
      rw [run_append, hrun3]
      simp only [Option.some_bind]
      rw [run_cons]
      simp only [step, Option.some_bind, run]
      rw [stopDrawing_of_active hD3]
    · simp only [List.length_cons, hH3]
      simp [setTool, startDrawing]

/-- Running a list of actions from a quiescent state satisfying the app
invariant succeeds and grows the history by exactly one entry per
action. -/
theorem actions_run : ∀ (as : List Action) (s : DrawingApp),
    Inv s → s.isDrawing = false →
    ∃ s' : DrawingApp, run s (actionsEvents as) = some s' ∧
      s'.history.length = s.history.length + as.length ∧
      s'.isDrawing = false := by
  intro as
  induction as with
  | nil =>
    intro s hInv hq
    exact ⟨s, rfl, by simp [actionsEvents], hq⟩
  | cons a as ih =>
    intro s hInv hq
    obtain ⟨s1, hrun1, hlen1, hq1⟩ := action_run a s hq
    have hInv1 : Inv s1 := run_inv a.events s s1 hInv hrun1
    obtain ⟨s', hrun', hlen', hq'⟩ := ih s1 hInv1 hq1
    refine ⟨s', ?_, ?_, hq'⟩
    · have hsplit : actionsEvents (a :: as) = a.events ++ actionsEvents as := by
        simp [actionsEvents]
      rw [hsplit, run_append, hrun1]
      simpa using hrun'
    · rw [hlen', hlen1, List.length_cons]
      ring

/-- C5: for every sequence of N completed gestures or clears from the
freshly constructed app (and no undo/redo), the run succeeds, the history
stack has length N+1 (the extra entry being the initial blank snapshot),
and N undos return the surface, and the whole history, to the initial
blank snapshot. -/
theorem C5_history_monotonicity (as : List Action) :
    ∃ s' : DrawingApp,
      run init (actionsEvents as) = some s' ∧
      s'.history.length = as.length + 1 ∧
      (undo^[as.length] s').history = [blankSurface] ∧
      (undo^[as.length] s').surface = blankSurface := by
  obtain ⟨s', hrun, hlen, hq⟩ := actions_run as init inv_init rfl
  have h1 : init.history.length = 1 := rfl
  rw [h1] at hlen
  have hInv : Inv s' := run_inv _ init s' inv_init hrun
  have hfix := undo_iter_fix as.length s' blankSurface hInv.1 hInv.2.1
    (hInv.2.2.1 hq) (by rw [hlen]; omega)
  exact ⟨s', hrun, by rw [hlen]; omega, hfix.1, hfix.2⟩

end DrawingApp
